import Mathlib

/-!
# Verification of the Kova AI multi-repository sync and file-organization subsystem

Shallow embedding of the subsystem formed by `MultiRepoSyncService`
(app/services/multi_repo_sync_service.py), `GoogleDriveKovaIntegration`
(app/services/google_drive_integration.py), `GoogleDriveImporter`
(scripts/gdrive_import.py) and `FileOrganizer` (scripts/file_organizer.py).

Python dictionaries are embedded as insertion-ordered association lists
(`List (String × _)`) so that iteration order and key update semantics match
CPython's; HTTP calls are embedded as explicit outcome values (status code and
parsed body, or a raised-exception message) supplied by an oracle function;
wall-clock-derived quantities (file age in days) are taken as explicit inputs.
-/

/-! ## Association-list helpers (Python dict semantics) -/

/-- First-match lookup in an insertion-ordered association list, the embedding
of Python dict indexing / `in` tests on keys. -/
def lookupA {α : Type} (m : List (String × α)) (k : String) : Option α :=
  match m with
  | [] => none
  | (k1, v) :: rest => if k1 = k then some v else lookupA rest k

/-- Python dict assignment `d[k] = v`: replaces the value in place when the key
exists, otherwise appends the new key at the end (insertion order). -/
def dictInsert {α : Type} (m : List (String × α)) (k : String) (v : α) : List (String × α) :=
  match m with
  | [] => [(k, v)]
  | (k1, v1) :: rest => if k1 = k then (k, v) :: rest else (k1, v1) :: dictInsert rest k v

/-- Python `d[k].append(x)` on a dict of lists: appends to the list stored at an
existing key, leaving everything else in place. -/
def updApp {α : Type} (m : List (String × List α)) (k : String) (x : α) :
    List (String × List α) :=
  match m with
  | [] => []
  | (k1, l) :: rest => if k1 = k then (k1, l ++ [x]) :: rest else (k1, l) :: updApp rest k x

/-- Python `d.setdefault(k, []).append(x)` pattern (`if k not in d: d[k] = []`
followed by `d[k].append(x)`). -/
def dictAppend {α : Type} (m : List (String × List α)) (k : String) (x : α) :
    List (String × List α) :=
  match lookupA m k with
  | some _ => updApp m k x
  | none => m ++ [(k, [x])]

theorem lookupA_dictInsert_self {α : Type} (m : List (String × α)) (k : String) (v : α) :
    lookupA (dictInsert m k v) k = some v := by
  induction m with
  | nil => simp [dictInsert, lookupA]
  | cons p rest ih =>
    obtain ⟨k1, v1⟩ := p
    by_cases h : k1 = k
    · simp [dictInsert, h, lookupA]
    · simp [dictInsert, h, lookupA, ih]

theorem lookupA_dictInsert_ne {α : Type} (m : List (String × α)) (k x : String) (v : α)
    (hx : x ≠ k) : lookupA (dictInsert m k v) x = lookupA m x := by
  have hkx : ¬ k = x := fun h => hx h.symm
  induction m with
  | nil => simp [dictInsert, lookupA, hkx]
  | cons p rest ih =>
    obtain ⟨k1, v1⟩ := p
    by_cases h : k1 = k
    · subst h
      simp [dictInsert, lookupA, hkx]
    · by_cases h2 : k1 = x <;> simp [dictInsert, h, lookupA, h2, ih, hx]

theorem lookupA_isSome_dictInsert {α : Type} (m : List (String × α)) (k x : String) (v : α) :
    (lookupA (dictInsert m k v) x).isSome = true ↔
      (lookupA m x).isSome = true ∨ x = k := by
  by_cases h : x = k
  · subst h
    simp [lookupA_dictInsert_self]
  · simp [lookupA_dictInsert_ne m k x v h, h]

theorem keys_dictInsert_nodup {α : Type} (m : List (String × α)) (k : String) (v : α)
    (h : (m.map Prod.fst).Nodup) : ((dictInsert m k v).map Prod.fst).Nodup := by
  induction m with
  | nil => simp [dictInsert]
  | cons p rest ih =>
    obtain ⟨k1, v1⟩ := p
    simp only [List.map_cons, List.nodup_cons] at h
    by_cases hk : k1 = k
    · subst hk
      simpa [dictInsert, List.nodup_cons] using h
    · have hmem : ∀ x (l : List (String × α)), x ∈ (dictInsert l k v).map Prod.fst →
          x ∈ l.map Prod.fst ∨ x = k := by
        intro x l
        induction l with
        | nil => simp [dictInsert]
        | cons q t iht =>
          obtain ⟨k2, v2⟩ := q
          by_cases h2 : k2 = k
          · subst h2
            simp [dictInsert]
            tauto
          · simp only [dictInsert, h2, if_false, List.map_cons, List.mem_cons]
            intro hc
            rcases hc with hc | hc
            · exact Or.inl (Or.inl hc)
            · rcases iht hc with h3 | h3
              · exact Or.inl (Or.inr h3)
              · exact Or.inr h3
      simp only [dictInsert, hk, if_false, List.map_cons, List.nodup_cons]
      constructor
      · intro hc
        rcases hmem k1 rest hc with h3 | h3
        · exact h.1 h3
        · exact hk h3
      · exact ih h.2

/-! ## MultiRepoSyncService (app/services/multi_repo_sync_service.py)

HTTP requests are embedded as oracle-supplied outcomes: a status code together
with the parsed JSON body, or the message of a raised exception (network
error, JSON decode error, ...). The wall-clock sync timestamp field is
omitted. -/

/-- Fields of the repository-metadata JSON body that the service reads. -/
structure RepoMetadata where
  name : String
  fullName : String
  description : Option String
  defaultBranch : Option String
  updatedAt : Option String
  stargazersCount : Nat
  forksCount : Nat
deriving DecidableEq

/-- Outcome of one HTTP GET: status code with parsed body, or a raised
exception's message. The body is only inspected on the statuses where the
source parses it. -/
inductive HttpOutcome (α : Type) where
  | ok (status : Nat) (body : α)
  | exn (msg : String)
deriving DecidableEq

/-- The three GET requests one repository sync issues (metadata, recent
commits, branches); commit and branch bodies are kept as lists of
identifiers/names. -/
structure RepoFetch where
  repoResp : HttpOutcome RepoMetadata
  commitsResp : HttpOutcome (List String)
  branchesResp : HttpOutcome (List String)
deriving DecidableEq

/-- httpx raise_for_status: only a 2xx response passes. -/
def isSuccessStatus (code : Nat) : Bool :=
  decide (200 ≤ code) && decide (code < 300)

/-- Per-repository data assembled by MultiRepoSyncService._sync_single_repo.
The 404 branch returns only the exists flag and a message; the success branch
fills the metadata fields. Absent keys are None. -/
structure RepoData where
  existsOnRemote : Bool
  message : Option String
  name : Option String
  fullName : Option String
  description : Option String
  defaultBranch : Option String
  updatedAt : Option String
  branches : List String
  recentCommits : Nat
  stars : Nat
  forks : Nat
deriving DecidableEq

/-- The dict `_sync_single_repo` returns when the metadata request is a 404. -/
def notFoundData (repoFullName : String) : RepoData :=
  { existsOnRemote := false
    message := some ("Repository " ++ repoFullName ++ " not found - may need to be created")
    name := none, fullName := none, description := none, defaultBranch := none
    updatedAt := none, branches := [], recentCommits := 0, stars := 0, forks := 0 }

/-- MultiRepoSyncService._sync_single_repo: 404 on the metadata request
returns the not-found dict; raise_for_status throws on any other non-2xx;
otherwise the data dict is assembled, with commits/branches bodies used only
when those requests returned 200. A raised exception anywhere is the error
case. -/
def syncSingleRepo (repoFullName : String) (f : RepoFetch) : Except String RepoData :=
  match f.repoResp with
  | .exn msg => .error msg
  | .ok status meta =>
    if status = 404 then .ok (notFoundData repoFullName)
    else if ¬ isSuccessStatus status then .error ("HTTP status error " ++ toString status)
    else
      match f.commitsResp with
      | .exn msg => .error msg
      | .ok cStatus commits =>
        match f.branchesResp with
        | .exn msg => .error msg
        | .ok bStatus branchNames =>
          .ok { existsOnRemote := true
                message := none
                name := some meta.name
                fullName := some meta.fullName
                description := meta.description
                defaultBranch := meta.defaultBranch
                updatedAt := meta.updatedAt
                branches := if bStatus = 200 then branchNames else []
                recentCommits := (if cStatus = 200 then commits else []).length
                stars := meta.stargazersCount
                forks := meta.forksCount }

/-- One value of the result map of sync_all_repositories (the synced_at
wall-clock timestamp is omitted). -/
structure SyncEntry where
  status : String
  data : Option RepoData
  error : Option String
deriving DecidableEq

/-- The try/except wrapper in sync_all_repositories: a returned value becomes a
"success" entry, a raised exception an "error" entry. -/
def resultEntry (r : Except String RepoData) : SyncEntry :=
  match r with
  | .ok d => { status := "success", data := some d, error := none }
  | .error e => { status := "error", data := none, error := some e }

/-- The loop of sync_all_repositories over the repo list, accumulating the
results dict. -/
def syncAllFrom (fetch : String → RepoFetch) (repos : List String)
    (acc : List (String × SyncEntry)) : List (String × SyncEntry) :=
  match repos with
  | [] => acc
  | r :: rest => syncAllFrom fetch rest (dictInsert acc r (resultEntry (syncSingleRepo r (fetch r))))

/-- MultiRepoSyncService.sync_all_repositories on a list of enabled repository
identifiers, with the network embedded as the fetch oracle. -/
def syncAllRepositories (fetch : String → RepoFetch) (repos : List String) :
    List (String × SyncEntry) :=
  syncAllFrom fetch repos []

theorem lookupA_syncAllFrom_not_mem (fetch : String → RepoFetch) (repos : List String)
    (acc : List (String × SyncEntry)) (r : String) (hr : r ∉ repos) :
    lookupA (syncAllFrom fetch repos acc) r = lookupA acc r := by
  induction repos generalizing acc with
  | nil => rfl
  | cons a rest ih =>
    have h1 : r ≠ a := fun h => hr (h ▸ List.mem_cons_self a rest)
    have h2 : r ∉ rest := fun h => hr (List.mem_cons_of_mem a h)
    simp only [syncAllFrom]
    rw [ih _ h2, lookupA_dictInsert_ne _ _ _ _ h1]

theorem lookupA_syncAllFrom_mem (fetch : String → RepoFetch) (repos : List String)
    (acc : List (String × SyncEntry)) (r : String) (hr : r ∈ repos) :
    lookupA (syncAllFrom fetch repos acc) r
      = some (resultEntry (syncSingleRepo r (fetch r))) := by
  induction repos generalizing acc with
  | nil => cases hr
  | cons a rest ih =>
    by_cases hmem : r ∈ rest
    · simp only [syncAllFrom]
      exact ih _ hmem
    · have ha : r = a := by
        rcases List.mem_cons.mp hr with h | h
        · exact h
        · exact absurd h hmem
      subst ha
      simp only [syncAllFrom]
      rw [lookupA_syncAllFrom_not_mem fetch rest _ r hmem, lookupA_dictInsert_self]

theorem syncAll_keys_nodup (fetch : String → RepoFetch) (repos : List String) :
    ((syncAllRepositories fetch repos).map Prod.fst).Nodup := by
  have h : ∀ (rs : List String) (acc : List (String × SyncEntry)),
      (acc.map Prod.fst).Nodup → ((syncAllFrom fetch rs acc).map Prod.fst).Nodup := by
    intro rs
    induction rs with
    | nil => intro acc h; exact h
    | cons a rest ih =>
      intro acc hacc
      exact ih _ (keys_dictInsert_nodup _ _ _ hacc)
  exact h repos [] (by simp)

theorem syncAll_isSome_iff (fetch : String → RepoFetch) (repos : List String) (x : String) :
    (lookupA (syncAllRepositories fetch repos) x).isSome = true ↔ x ∈ repos := by
  by_cases hx : x ∈ repos
  · simp [syncAllRepositories, lookupA_syncAllFrom_mem fetch repos [] x hx, hx]
  · simp [syncAllRepositories, lookupA_syncAllFrom_not_mem fetch repos [] x hx, hx, lookupA]

/-- A concrete fetch oracle: 200 with metadata for Kathrynhiggs21/kova-ai,
404 for every other repository. -/
def demoMeta : RepoMetadata :=
  { name := "kova-ai", fullName := "Kathrynhiggs21/kova-ai", description := none
    defaultBranch := some "main", updatedAt := none, stargazersCount := 0, forksCount := 0 }

def demoFetch : String → RepoFetch := fun repo =>
  if repo = "Kathrynhiggs21/kova-ai" then
    { repoResp := .ok 200 demoMeta
      commitsResp := .ok 200 ["abc123"]
      branchesResp := .ok 200 ["main"] }
  else
    { repoResp := .ok 404 demoMeta
      commitsResp := .ok 200 []
      branchesResp := .ok 200 [] }

/-- C1 counterexample: when the metadata request returns HTTP 404, the entry in
the result map of sync_all_repositories has status "success" (with the data
marked as not existing), not status "not-found" as claimed. -/
theorem sync_notfound_counterexample :
    lookupA (syncAllRepositories demoFetch
        ["Kathrynhiggs21/kova-ai", "Kathrynhiggs21/kova-ai-site"]) "Kathrynhiggs21/kova-ai-site"
      = some { status := "success"
               data := some (notFoundData "Kathrynhiggs21/kova-ai-site")
               error := none }
  ∧ ("success" : String) ≠ "not-found" := by
  exact ⟨by decide, by decide⟩

/-- C1 (amended): in every sync pass, a 404 on a repository's metadata request
yields a result-map entry with status "success" whose data is marked as not
existing on the remote (no hard failure and no exception); a 200 metadata
response whose follow-up commit/branch requests return without raising yields
status "success" with data marked existing; and a raised exception yields
status "error" with the exception message captured. -/
theorem sync_status_amended (fetch : String → RepoFetch) (repos : List String) (r : String)
    (hr : r ∈ repos) :
    (∀ meta, (fetch r).repoResp = .ok 404 meta →
        lookupA (syncAllRepositories fetch repos) r
          = some { status := "success", data := some (notFoundData r), error := none })
  ∧ (∀ meta cst commits bst branchNames,
        (fetch r).repoResp = .ok 200 meta →
        (fetch r).commitsResp = .ok cst commits →
        (fetch r).branchesResp = .ok bst branchNames →
        ∃ d, lookupA (syncAllRepositories fetch repos) r
            = some { status := "success", data := some d, error := none }
          ∧ d.existsOnRemote = true)
  ∧ (∀ msg, (fetch r).repoResp = .exn msg →
        lookupA (syncAllRepositories fetch repos) r
          = some { status := "error", data := none, error := some msg }) := by
  have hbase := lookupA_syncAllFrom_mem fetch repos [] r hr
  refine ⟨?_, ?_, ?_⟩
  · intro meta h
    simpa [syncAllRepositories, syncSingleRepo, h, resultEntry] using hbase
  · intro meta cst commits bst branchNames h1 h2 h3
    refine ⟨{ existsOnRemote := true
              message := none
              name := some meta.name
              fullName := some meta.fullName
              description := meta.description
              defaultBranch := meta.defaultBranch
              updatedAt := meta.updatedAt
              branches := if bst = 200 then branchNames else []
              recentCommits := (if cst = 200 then commits else []).length
              stars := meta.stargazersCount
              forks := meta.forksCount }, ?_, rfl⟩
    simpa [syncAllRepositories, syncSingleRepo, h1, h2, h3, isSuccessStatus,
      resultEntry] using hbase
  · intro msg h
    simpa [syncAllRepositories, syncSingleRepo, h, resultEntry] using hbase

/-- Witness for sync_status_amended at a concrete oracle and repository list. -/
theorem sync_status_amended_witness :
    lookupA (syncAllRepositories demoFetch ["Kathrynhiggs21/kova-ai-site"])
        "Kathrynhiggs21/kova-ai-site"
      = some { status := "success"
               data := some (notFoundData "Kathrynhiggs21/kova-ai-site")
               error := none } :=
  (sync_status_amended demoFetch ["Kathrynhiggs21/kova-ai-site"]
    "Kathrynhiggs21/kova-ai-site" (by decide)).1 demoMeta (by decide)

/-- C3: sync_all_repositories yields a map with no duplicate keys, an entry for
exactly the repositories of the input list, each entry fully determined by that
repository's own fetch outcomes (so a failure in one repository cannot alter
another's entry), and a raised per-repository exception recorded as a
structured "error" entry rather than propagated. -/
theorem sync_all_isolated (fetch fetch2 : String → RepoFetch) (repos : List String)
    (r : String) (hr : r ∈ repos) (hagree : fetch r = fetch2 r) :
    ((syncAllRepositories fetch repos).map Prod.fst).Nodup
  ∧ (∀ x, (lookupA (syncAllRepositories fetch repos) x).isSome = true ↔ x ∈ repos)
  ∧ lookupA (syncAllRepositories fetch repos) r
      = some (resultEntry (syncSingleRepo r (fetch r)))
  ∧ lookupA (syncAllRepositories fetch repos) r
      = lookupA (syncAllRepositories fetch2 repos) r
  ∧ (∀ msg, syncSingleRepo r (fetch r) = .error msg →
        lookupA (syncAllRepositories fetch repos) r
          = some { status := "error", data := none, error := some msg }) := by
  refine ⟨syncAll_keys_nodup fetch repos, fun x => syncAll_isSome_iff fetch repos x,
    lookupA_syncAllFrom_mem fetch repos [] r hr, ?_, ?_⟩
  · rw [syncAllRepositories, syncAllRepositories,
      lookupA_syncAllFrom_mem fetch repos [] r hr,
      lookupA_syncAllFrom_mem fetch2 repos [] r hr, hagree]
  · intro msg hm
    rw [syncAllRepositories, lookupA_syncAllFrom_mem fetch repos [] r hr, hm]
    rfl

/-- Witness for sync_all_isolated at a concrete oracle and repository list. -/
theorem sync_all_isolated_witness :
    ((syncAllRepositories demoFetch ["Kathrynhiggs21/kova-ai"]).map Prod.fst).Nodup :=
  (sync_all_isolated demoFetch demoFetch ["Kathrynhiggs21/kova-ai"]
    "Kathrynhiggs21/kova-ai" (by decide) rfl).1

/-! ### Configuration registry (load_config / default config / add_repo_to_config) -/

/-- One entry of the repositories array of kova_repos_config.json. Keys other
than full_name may be absent; the code reads them through .get with defaults. -/
structure RepoEntry where
  fullName : String
  enabled : Option Bool := none
  name : Option String := none
  description : Option String := none
  repoType : Option String := none
  syncPriority : Option Nat := none
  features : Option (List String) := none
deriving DecidableEq

/-- The configuration document (the keys the embedded code reads). -/
structure Config where
  githubOwner : String
  repositories : List RepoEntry
deriving DecidableEq

/-- MultiRepoSyncService._get_default_config. -/
def getDefaultConfig : Config :=
  { githubOwner := "Kathrynhiggs21"
    repositories :=
      [ { fullName := "Kathrynhiggs21/Kova-ai-SYSTEM", enabled := some true }
      , { fullName := "Kathrynhiggs21/kova-ai", enabled := some true }
      , { fullName := "Kathrynhiggs21/kova-ai-site", enabled := some true }
      , { fullName := "Kathrynhiggs21/kova-ai-mem0", enabled := some true }
      , { fullName := "Kathrynhiggs21/kova-ai-docengine", enabled := some true }
      , { fullName := "Kathrynhiggs21/Kova-AI-Scribbles", enabled := some true } ] }

/-- MultiRepoSyncService._load_config: the outcome of reading and parsing the
configuration file is the argument; any exception falls back to the default. -/
def loadConfig (readResult : Except String Config) : Config :=
  match readResult with
  | .ok c => c
  | .error _ => getDefaultConfig

/-- MultiRepoSyncService.get_enabled_repos (repo.get("enabled", True)). -/
def getEnabledRepos (config : Config) : List String :=
  (config.repositories.filter (fun e => e.enabled.getD true)).map RepoEntry.fullName

/-- C5 counterexample: the hard-coded default configuration returned on load
failure contains six repositories, not five. -/
theorem default_config_counterexample :
    (loadConfig (.error "Failed to load config")).repositories.length = 6
  ∧ (6 : Nat) ≠ 5 := ⟨rfl, by decide⟩

/-- C5 (amended): whenever loading the configuration document fails, the load
operation returns the hard-coded default configuration, and that default
contains exactly six repositories. -/
theorem load_config_fallback (msg : String) :
    loadConfig (.error msg) = getDefaultConfig
  ∧ getDefaultConfig.repositories.length = 6 := ⟨rfl, rfl⟩

/-- Fields of the GitHub repository JSON body read by add_repo_to_config. -/
structure GhRepoInfo where
  name : Option String
  description : Option String
deriving DecidableEq

/-- Python str.split on one separator character. -/
def splitOnCharAux (sep : Char) : List Char → List Char → List (List Char)
  | [], cur => [cur.reverse]
  | c :: rest, cur =>
    if c = sep then cur.reverse :: splitOnCharAux sep rest []
    else splitOnCharAux sep rest (c :: cur)

/-- Python repo_full_name.split("/")[-1]. -/
def tailName (repoFullName : String) : String :=
  ((splitOnCharAux '/' repoFullName.data []).getLastD []).asString

/-- MultiRepoSyncService.add_repo_to_config. The GitHub existence check and the
configuration-file read are oracle arguments; the result is the returned
boolean paired with the configuration document written back (none when nothing
is written). A raised exception is caught by the outer handler and returns
False; the final write is taken as succeeding. -/
def addRepoToConfig (ghResp : HttpOutcome GhRepoInfo) (cfgLoad : Except String Config)
    (repoFullName repoType : String) : Bool × Option Config :=
  match ghResp with
  | .exn _ => (false, none)
  | .ok status body =>
    let repoInfo : GhRepoInfo :=
      if status = 404 then
        { name := some (tailName repoFullName), description := some "Planned repository" }
      else body
    match cfgLoad with
    | .error _ => (false, none)
    | .ok config =>
      if (config.repositories.filter (fun e => e.fullName = repoFullName)).isEmpty then
        let newRepo : RepoEntry :=
          { fullName := repoFullName
            name := some (repoInfo.name.getD (tailName repoFullName))
            description := some (repoInfo.description.getD "Kova AI repository")
            repoType := some repoType
            enabled := some true
            syncPriority := some 3
            features := some [] }
        (true, some { config with repositories := config.repositories ++ [newRepo] })
      else (true, none)

/-- A one-repository configuration document for concrete runs. -/
def demoConfig : Config :=
  { githubOwner := "Kathrynhiggs21"
    repositories := [ { fullName := "Kathrynhiggs21/kova-ai", enabled := some true } ] }

/-- C4 counterexample: calling add_repo_to_config with an identifier already
present in the configuration returns True (success), not failure as claimed,
and writes nothing. -/
theorem add_existing_counterexample :
    addRepoToConfig (.ok 200 { name := some "kova-ai", description := none })
        (.ok demoConfig) "Kathrynhiggs21/kova-ai" "service"
      = (true, none)
  ∧ (demoConfig.repositories.filter
      (fun e => e.fullName = "Kathrynhiggs21/kova-ai")).isEmpty = false
  ∧ true ≠ false := ⟨by decide, by decide, by decide⟩

/-- C4 (amended): with an identifier already present in the configuration,
add_repo_to_config returns success (True) without appending or rewriting the
document; only for an identifier not already present does it append a new
entry and rewrite the document, and a 404 from the remote API does not prevent
the addition — the entry is still appended, described as a planned
repository. -/
theorem add_repo_amended (status : Nat) (body : GhRepoInfo) (config : Config)
    (repoFullName repoType : String) :
    ((config.repositories.filter (fun e => e.fullName = repoFullName)).isEmpty = false →
        addRepoToConfig (.ok status body) (.ok config) repoFullName repoType = (true, none))
  ∧ ((config.repositories.filter (fun e => e.fullName = repoFullName)).isEmpty = true →
        ∃ newRepo : RepoEntry,
          addRepoToConfig (.ok status body) (.ok config) repoFullName repoType
            = (true, some { config with repositories := config.repositories ++ [newRepo] })
          ∧ newRepo.fullName = repoFullName
          ∧ (status = 404 → newRepo.description = some "Planned repository")) := by
  constructor
  · intro h
    simp [addRepoToConfig, h]
  · intro h
    by_cases h404 : status = 404
    · subst h404
      exact ⟨{ fullName := repoFullName
               name := some ((some (tailName repoFullName)).getD (tailName repoFullName))
               description := some ((some "Planned repository").getD "Kova AI repository")
               repoType := some repoType
               enabled := some true
               syncPriority := some 3
               features := some [] },
        by simp [addRepoToConfig, h], rfl, fun _ => rfl⟩
    · exact ⟨{ fullName := repoFullName
               name := some (body.name.getD (tailName repoFullName))
               description := some (body.description.getD "Kova AI repository")
               repoType := some repoType
               enabled := some true
               syncPriority := some 3
               features := some [] },
        by simp [addRepoToConfig, h, h404], rfl, fun hc => absurd hc h404⟩

/-! ## GoogleDriveKovaIntegration (app/services/google_drive_integration.py) -/

/-- Python str.lower, character by character. -/
def lowerStr (s : String) : String := (s.data.map Char.toLower).asString

/-- Python substring containment, the "needle in hay" operator. -/
def containsSub (hay needle : String) : Bool := decide (needle.data.IsInfix hay.data)

/-- One record of the Google Drive file manifest (the keys the embedded code
reads: name, mimeType, size, and the optional path used by the planner). -/
structure DFile where
  name : String
  mimeType : String
  size : Nat
  path : Option String := none
deriving DecidableEq

/-- detect_duplicates name normalization: lowercased with spaces, hyphens and
underscores removed. -/
def normalizeName (name : String) : String :=
  ((lowerStr name).data.filter (fun c => !(c = ' ' || c = '-' || c = '_'))).asString

/-- The grouping signature f-string of detect_duplicates:
normalized name, an underscore, and the size. -/
def signatureOf (f : DFile) : String :=
  normalizeName f.name ++ "_" ++ toString f.size

/-- The two dictionaries the detect_duplicates loop maintains. -/
structure DupState where
  fileSignatures : List (String × DFile)
  duplicates : List (String × List DFile)
deriving DecidableEq

/-- One iteration of the detect_duplicates loop. -/
def detectStep (st : DupState) (f : DFile) : DupState :=
  let s := signatureOf f
  match lookupA st.fileSignatures s with
  | some firstFile =>
    match lookupA st.duplicates s with
    | some _ => { st with duplicates := updApp st.duplicates s f }
    | none => { st with duplicates := st.duplicates ++ [(s, [firstFile, f])] }
  | none => { st with fileSignatures := st.fileSignatures ++ [(s, f)] }

/-- The detect_duplicates loop over the file list. -/
def detectFrom (st : DupState) (files : List DFile) : DupState :=
  match files with
  | [] => st
  | f :: rest => detectFrom (detectStep st f) rest

/-- GoogleDriveKovaIntegration.detect_duplicates: the returned dict of
duplicate groups. -/
def detectDuplicates (files : List DFile) : List (String × List DFile) :=
  (detectFrom { fileSignatures := [], duplicates := [] } files).duplicates

/-- The four keyword/extension rule sets of categorize_file, in source order. -/
def coreTerms : List String := ["system", "core", "main", "master"]

def docExts : List String := [".md", ".txt", ".doc", ".pdf"]

def docTerms : List String := ["readme", "doc", "guide", "manual"]

def configExts : List String := [".json", ".yaml", ".yml", ".toml", ".env", ".config"]

def configTerms : List String := ["config", "settings", "env"]

def codeExts : List String := [".py", ".js", ".ts", ".go", ".rs"]

/-- GoogleDriveKovaIntegration.categorize_file: ordered rule chain over the
lowercased name (the mimeType key is read by the source but never used). -/
def categorizeFile (f : DFile) : String :=
  let filename := lowerStr f.name
  if coreTerms.any (fun t => containsSub filename t) then "core"
  else if docExts.any (fun e => containsSub filename e)
      || docTerms.any (fun t => containsSub filename t) then "documentation"
  else if configExts.any (fun e => containsSub filename e)
      || configTerms.any (fun t => containsSub filename t) then "configuration"
  else if codeExts.any (fun e => containsSub filename e) then "code"
  else "unknown"

/-- The obsolescence keyword list of identify_obsolete_files. -/
def obsoleteKeywords : List String :=
  ["old", "backup", "copy", "temp", "tmp", "draft", "test", "deprecated", "archive", "unused"]

/-- GoogleDriveKovaIntegration.identify_obsolete_files membership condition:
an obsolescence keyword, or an embedded v1..v9 version marker. -/
def isObsolete (f : DFile) : Bool :=
  let filename := lowerStr f.name
  obsoleteKeywords.any (fun kw => containsSub filename kw)
  || (List.range' 1 9).any (fun i =>
        containsSub filename ("v" ++ toString i)
        || containsSub filename ("_v" ++ toString i ++ "_"))

/-- The category-grouping loop of create_file_manifest. -/
def categoriesFrom (acc : List (String × List DFile)) : List DFile → List (String × List DFile)
  | [] => acc
  | f :: rest => categoriesFrom (dictAppend acc (categorizeFile f) f) rest

/-- The parts of the manifest of create_file_manifest that
generate_migration_plan consumes (the timestamp, total count, main-file
selection and the static recommended structure are not read by the claims). -/
structure MigrationManifest where
  categories : List (String × List DFile)
  duplicates : List (String × List DFile)
  obsolete : List DFile
deriving DecidableEq

/-- GoogleDriveKovaIntegration.create_file_manifest (the fields above). -/
def createFileManifest (files : List DFile) : MigrationManifest :=
  { categories := categoriesFrom [] files
    duplicates := detectDuplicates files
    obsolete := files.filter isObsolete }

/-- A "move" action of the migration plan. -/
structure MoveAction where
  file : String
  fromPath : String
  toFolder : String
  category : String
deriving DecidableEq

/-- An "archive" action of the migration plan. -/
structure ArchiveAction where
  file : String
  reason : String
deriving DecidableEq

/-- GoogleDriveKovaIntegration._map_category_to_folder (static lookup with a
default). -/
def mapCategoryToFolder (category : String) : String :=
  if category = "core" then "01_CORE_SYSTEM"
  else if category = "documentation" then "02_DOCUMENTATION"
  else if category = "configuration" then "01_CORE_SYSTEM/config"
  else if category = "code" then "06_DEVELOPMENT/active"
  else if category = "unknown" then "06_DEVELOPMENT/active"
  else "06_DEVELOPMENT/active"

/-- The move-planning loop of generate_migration_plan: every categorized file
not flagged obsolete becomes a move to the mapped folder. -/
def planMoves (categories : List (String × List DFile)) (obsolete : List DFile) :
    List MoveAction :=
  categories.flatMap (fun p =>
    (p.2.filter (fun f => !(obsolete.contains f))).map (fun f =>
      { file := f.name
        fromPath := f.path.getD "root"
        toFolder := mapCategoryToFolder p.1
        category := p.1 }))

/-- The archive-planning loops of generate_migration_plan: every obsolete file,
then every member after the first of each duplicate group. -/
def planArchives (obsolete : List DFile) (duplicates : List (String × List DFile)) :
    List ArchiveAction :=
  obsolete.map (fun f => { file := f.name, reason := "Identified as obsolete" })
  ++ duplicates.flatMap (fun p =>
      (p.2.drop 1).map (fun f => { file := f.name, reason := "Duplicate" }))

/-- The action lists of generate_migration_plan (delete/merge/rename are never
appended to by the source; the folder-creation list is static and not read by
the claims). -/
structure MigrationPlan where
  moveActions : List MoveAction
  archiveActions : List ArchiveAction
  deleteActions : List ArchiveAction
  mergeActions : List ArchiveAction
  renameActions : List ArchiveAction
  totalActions : Nat
deriving DecidableEq

/-- GoogleDriveKovaIntegration.generate_migration_plan (the action lists). -/
def generateMigrationPlan (m : MigrationManifest) : MigrationPlan :=
  let moves := planMoves m.categories m.obsolete
  let archives := planArchives m.obsolete m.duplicates
  { moveActions := moves
    archiveActions := archives
    deleteActions := []
    mergeActions := []
    renameActions := []
    totalActions := moves.length + archives.length }

/-- C9 counterexample: a file named "main_readme" contains "readme" and matches
no extension rule anywhere in the chain, yet categorize_file returns "core"
(the core-term rule fires first on "main"), not "documentation". -/
theorem categorize_readme_counterexample :
    containsSub (lowerStr "main_readme") "readme" = true
  ∧ (docExts ++ configExts ++ codeExts).all
      (fun e => !(containsSub (lowerStr "main_readme") e)) = true
  ∧ categorizeFile { name := "main_readme", mimeType := "" , size := 0 } = "core"
  ∧ ("core" : String) ≠ "documentation" := by
  exact ⟨by decide, by decide, by decide, by decide⟩

/-- C9 (amended): a file whose lowercased name contains "readme" and contains
none of the core terms (system, core, main, master) is categorized
"documentation"; in general the rule chain is applied in its fixed order —
any core term yields "core" first, and a name matching no rule at all yields
"unknown". -/
theorem categorize_readme_amended (f : DFile)
    (hreadme : containsSub (lowerStr f.name) "readme" = true)
    (hcore : coreTerms.all (fun t => !(containsSub (lowerStr f.name) t)) = true) :
    categorizeFile f = "documentation"
  ∧ (∀ g : DFile, coreTerms.any (fun t => containsSub (lowerStr g.name) t) = true →
        categorizeFile g = "core")
  ∧ (∀ g : DFile,
        (coreTerms ++ docTerms ++ configTerms).all
          (fun t => !(containsSub (lowerStr g.name) t)) = true →
        (docExts ++ configExts ++ codeExts).all
          (fun e => !(containsSub (lowerStr g.name) e)) = true →
        categorizeFile g = "unknown") := by
  refine ⟨?_, ?_, ?_⟩
  · have hnone : coreTerms.any (fun t => containsSub (lowerStr f.name) t) = false := by
      rw [← Bool.not_eq_true]
      intro hc
      rcases List.any_eq_true.mp hc with ⟨t, ht, hsub⟩
      have := List.all_eq_true.mp hcore t ht
      simp [hsub] at this
    have hdoc : docTerms.any (fun t => containsSub (lowerStr f.name) t) = true :=
      List.any_eq_true.mpr ⟨"readme", by decide, hreadme⟩
    simp [categorizeFile, hnone, hdoc]
  · intro g hg
    simp [categorizeFile, hg]
  · intro g hterms hexts
    have hof : ∀ (l : List String), (∀ x ∈ l, x ∈ (coreTerms ++ docTerms ++ configTerms) ∨
          x ∈ (docExts ++ configExts ++ codeExts)) →
        l.any (fun t => containsSub (lowerStr g.name) t) = false := by
      intro l hl
      rw [← Bool.not_eq_true]
      intro hc
      rcases List.any_eq_true.mp hc with ⟨t, ht, hsub⟩
      rcases hl t ht with hmem | hmem
      · have := List.all_eq_true.mp hterms t hmem
        simp [hsub] at this
      · have := List.all_eq_true.mp hexts t hmem
        simp [hsub] at this
    have h1 : coreTerms.any (fun t => containsSub (lowerStr g.name) t) = false :=
      hof _ (by intro x hx; exact Or.inl (by simp [hx]))
    have h2 : docExts.any (fun t => containsSub (lowerStr g.name) t) = false :=
      hof _ (by intro x hx; exact Or.inr (by simp [hx]))
    have h3 : docTerms.any (fun t => containsSub (lowerStr g.name) t) = false :=
      hof _ (by intro x hx; exact Or.inl (by simp [hx]))
    have h4 : configExts.any (fun t => containsSub (lowerStr g.name) t) = false :=
      hof _ (by intro x hx; exact Or.inr (by simp [hx]))
    have h5 : configTerms.any (fun t => containsSub (lowerStr g.name) t) = false :=
      hof _ (by intro x hx; exact Or.inl (by simp [hx]))
    have h6 : codeExts.any (fun t => containsSub (lowerStr g.name) t) = false :=
      hof _ (by intro x hx; exact Or.inr (by simp [hx]))
    simp [categorizeFile, h1, h2, h3, h4, h5, h6]

/-- Witness for categorize_readme_amended at a concrete file. -/
theorem categorize_readme_amended_witness :
    categorizeFile { name := "my_readme", mimeType := "", size := 0 } = "documentation" :=
  (categorize_readme_amended { name := "my_readme", mimeType := "", size := 0 }
    (by decide) (by decide)).1

/-- The three-file manifest of the end-to-end scenario. -/
def cfgFileA : DFile := { name := "kova_config.json", mimeType := "application/json", size := 1024 }

def cfgFileB : DFile := { name := "kova_config_copy.json", mimeType := "application/json", size := 1024 }

def readmeFile : DFile := { name := "README.md", mimeType := "text/markdown", size := 2048 }

def scenarioFiles : List DFile := [cfgFileA, cfgFileB, readmeFile]

/-- C2 counterexample: on the scenario manifest, detect_duplicates returns no
group at all — normalization strips only spaces/hyphens/underscores, so
"kova_config.json" and "kova_config_copy.json" normalize to different strings
— contradicting the claimed single exact-duplicate group of the two config
files. -/
theorem drive_scenario_counterexample :
    detectDuplicates scenarioFiles = []
  ∧ normalizeName cfgFileA.name ≠ normalizeName cfgFileB.name
  ∧ (detectDuplicates scenarioFiles).length ≠ 1 := by
  exact ⟨by decide, by decide, by decide⟩

/-- C2 (amended): on the scenario manifest, duplicate detection returns no
exact-duplicate group (the "copy" suffix survives normalization, so the two
config names differ); categorization assigns "configuration" to both config
files and "documentation" to the README; and the migration plan built from the
resulting manifest contains exactly one "archive" action — for
kova_config_copy.json, flagged obsolete by the "copy" keyword rather than as a
duplicate — and exactly two "move" actions. -/
theorem drive_scenario_amended :
    detectDuplicates scenarioFiles = []
  ∧ categorizeFile cfgFileA = "configuration"
  ∧ categorizeFile cfgFileB = "configuration"
  ∧ categorizeFile readmeFile = "documentation"
  ∧ (generateMigrationPlan (createFileManifest scenarioFiles)).archiveActions
      = [{ file := "kova_config_copy.json", reason := "Identified as obsolete" }]
  ∧ ((generateMigrationPlan (createFileManifest scenarioFiles)).moveActions.map
      MoveAction.file) = ["kova_config.json", "README.md"]
  ∧ (generateMigrationPlan (createFileManifest scenarioFiles)).archiveActions.length = 1
  ∧ (generateMigrationPlan (createFileManifest scenarioFiles)).moveActions.length = 2 := by
  refine ⟨by decide, by decide, by decide, by decide, by decide, by decide, by decide, by decide⟩

/-! ### Exact-duplicate grouping invariant (claim C6) -/

theorem lookupA_append_single {α : Type} (m : List (String × α)) (k0 s : String) (v : α) :
    lookupA (m ++ [(k0, v)]) s
      = match lookupA m s with
        | some w => some w
        | none => if k0 = s then some v else none := by
  induction m with
  | nil => simp [lookupA]
  | cons p rest ih =>
    obtain ⟨k1, v1⟩ := p
    by_cases h : k1 = s <;> simp [lookupA, h, ih]

theorem lookupA_updApp_self {α : Type} (m : List (String × List α)) (k : String) (x : α)
    (l : List α) (h : lookupA m k = some l) :
    lookupA (updApp m k x) k = some (l ++ [x]) := by
  induction m with
  | nil => simp [lookupA] at h
  | cons p rest ih =>
    obtain ⟨k1, v1⟩ := p
    by_cases hk : k1 = k
    · subst hk
      have hv : v1 = l := by simpa [lookupA] using h
      subst hv
      simp [updApp, lookupA]
    · simp only [lookupA, if_neg hk] at h
      simp [updApp, hk, lookupA, ih h]

theorem lookupA_updApp_ne {α : Type} (m : List (String × List α)) (k s : String) (x : α)
    (hs : s ≠ k) : lookupA (updApp m k x) s = lookupA m s := by
  have hks : ¬ k = s := fun h => hs h.symm
  induction m with
  | nil => simp [updApp]
  | cons p rest ih =>
    obtain ⟨k1, v1⟩ := p
    by_cases hk : k1 = k
    · subst hk
      simp [updApp, lookupA, hks]
    · simp [updApp, hk, lookupA, ih]

theorem keys_updApp {α : Type} (m : List (String × List α)) (k : String) (x : α) :
    (updApp m k x).map Prod.fst = m.map Prod.fst := by
  induction m with
  | nil => simp [updApp]
  | cons p rest ih =>
    obtain ⟨k1, v1⟩ := p
    by_cases hk : k1 = k <;> simp [updApp, hk, ih]

theorem lookupA_eq_none_iff {α : Type} (m : List (String × α)) (k : String) :
    lookupA m k = none ↔ k ∉ m.map Prod.fst := by
  induction m with
  | nil => simp [lookupA]
  | cons p rest ih =>
    obtain ⟨k1, v1⟩ := p
    by_cases h : k1 = k
    · subst h
      simp [lookupA]
    · have hne : ¬ k = k1 := fun he => h he.symm
      simp [lookupA, h, ih, hne]

theorem lookupA_of_mem_nodup {α : Type} (m : List (String × α)) (s : String) (l : α)
    (hmem : (s, l) ∈ m) (hnd : (m.map Prod.fst).Nodup) : lookupA m s = some l := by
  induction m with
  | nil => cases hmem
  | cons p rest ih =>
    obtain ⟨k1, v1⟩ := p
    simp only [List.map_cons, List.nodup_cons] at hnd
    rcases List.mem_cons.mp hmem with h | h
    · obtain ⟨hk, hv⟩ := Prod.mk.injEq .. ▸ h
      subst hk
      subst hv
      simp [lookupA]
    · have hs : ¬ k1 = s := by
        intro he
        subst he
        exact hnd.1 (List.mem_map.mpr ⟨(k1, l), h, rfl⟩)
      simp [lookupA, hs, ih h hnd.2]

theorem mem_of_lookupA {α : Type} (m : List (String × α)) (s : String) (l : α)
    (h : lookupA m s = some l) : (s, l) ∈ m := by
  induction m with
  | nil => simp [lookupA] at h
  | cons p rest ih =>
    obtain ⟨k1, v1⟩ := p
    by_cases hk : k1 = s
    · subst hk
      have hv : v1 = l := by simpa [lookupA] using h
      subst hv
      exact List.mem_cons_self _ _
    · simp only [lookupA, if_neg hk] at h
      exact List.mem_cons_of_mem _ (ih h)

/-- The files of a list sharing one grouping signature, in order. -/
def sigFiles (s : String) (files : List DFile) : List DFile :=
  files.filter (fun f => signatureOf f = s)

/-- Loop invariant of detect_duplicates over the processed prefix p:
file_signatures maps each signature to its first occurrence, and duplicates
maps exactly the signatures seen at least twice to all their files, in order,
with no key repeated. -/
def detectInv (p : List DFile) (st : DupState) : Prop :=
  (∀ s, lookupA st.fileSignatures s = (sigFiles s p).head?)
  ∧ (∀ s, lookupA st.duplicates s
        = if 2 ≤ (sigFiles s p).length then some (sigFiles s p) else none)
  ∧ (st.duplicates.map Prod.fst).Nodup

theorem sigFiles_append (s : String) (p : List DFile) (f : DFile) :
    sigFiles s (p ++ [f]) = sigFiles s p ++ (if signatureOf f = s then [f] else []) := by
  by_cases h : signatureOf f = s <;> simp [sigFiles, List.filter_append, h]

theorem detectInv_step (p : List DFile) (st : DupState) (f : DFile)
    (h : detectInv p st) : detectInv (p ++ [f]) (detectStep st f) := by
  obtain ⟨h1, h2, h3⟩ := h
  cases hfs : lookupA st.fileSignatures (signatureOf f) with
  | none =>
    have hempty : sigFiles (signatureOf f) p = [] := by
      have hh := h1 (signatureOf f)
      rw [hfs] at hh
      exact List.head?_eq_none_iff.mp hh.symm
    have hstep : detectStep st f
        = { st with fileSignatures := st.fileSignatures ++ [(signatureOf f, f)] } := by
      simp [detectStep, hfs]
    rw [hstep]
    refine ⟨?_, ?_, h3⟩
    · intro s
      by_cases hs : s = signatureOf f
      · subst hs
        rw [lookupA_append_single, hfs, sigFiles_append]
        simp [hempty]
      · have hne : signatureOf f ≠ s := fun he => hs he.symm
        rw [lookupA_append_single, sigFiles_append]
        simp only [if_neg hne, List.append_nil]
        rw [h1 s]
        cases hh : (sigFiles s p).head? with
        | none => simp [hne]
        | some w => rfl
    · intro s
      by_cases hs : s = signatureOf f
      · subst hs
        rw [h2 _, sigFiles_append]
        simp [hempty]
      · have hne : signatureOf f ≠ s := fun he => hs he.symm
        rw [h2 s, sigFiles_append]
        simp [if_neg hne]
  | some firstFile =>
    have hhead : (sigFiles (signatureOf f) p).head? = some firstFile := by
      have hh := h1 (signatureOf f)
      rw [hfs] at hh
      exact hh.symm
    cases hdup : lookupA st.duplicates (signatureOf f) with
    | none =>
      have hlen : ¬ 2 ≤ (sigFiles (signatureOf f) p).length := by
        intro hc
        have hh := h2 (signatureOf f)
        rw [hdup, if_pos hc] at hh
        cases hh
      have hone : sigFiles (signatureOf f) p = [firstFile] := by
        cases hsf : sigFiles (signatureOf f) p with
        | nil => rw [hsf] at hhead; cases hhead
        | cons a t =>
          rw [hsf] at hhead
          simp only [List.head?_cons, Option.some.injEq] at hhead
          subst hhead
          cases ht : t with
          | nil => rfl
          | cons b t2 =>
            rw [hsf, ht] at hlen
            exact absurd (by simp) hlen
      have hstep : detectStep st f
          = { st with duplicates := st.duplicates ++ [(signatureOf f, [firstFile, f])] } := by
        simp [detectStep, hfs, hdup]
      rw [hstep]
      refine ⟨?_, ?_, ?_⟩
      · intro s
        rw [h1 s, sigFiles_append]
        by_cases hs : signatureOf f = s
        · rw [if_pos hs, ← hs, hone]
          simp
        · simp [if_neg hs]
      · intro s
        by_cases hs : s = signatureOf f
        · subst hs
          rw [lookupA_append_single, hdup, sigFiles_append]
          simp [hone]
        · have hne : signatureOf f ≠ s := fun he => hs he.symm
          rw [lookupA_append_single, h2 s, sigFiles_append]
          simp only [if_neg hne, List.append_nil]
          by_cases hc : 2 ≤ (sigFiles s p).length <;> simp [hc, hne]
      · have hnotin : signatureOf f ∉ st.duplicates.map Prod.fst :=
          (lookupA_eq_none_iff _ _).mp hdup
        simp [List.nodup_append, h3, hnotin]
    | some l =>
      have hl : l = sigFiles (signatureOf f) p ∧ 2 ≤ (sigFiles (signatureOf f) p).length := by
        have hh := h2 (signatureOf f)
        rw [hdup] at hh
        by_cases hc : 2 ≤ (sigFiles (signatureOf f) p).length
        · rw [if_pos hc] at hh
          exact ⟨Option.some.inj hh, hc⟩
        · rw [if_neg hc] at hh
          cases hh
      have hstep : detectStep st f
          = { st with duplicates := updApp st.duplicates (signatureOf f) f } := by
        simp [detectStep, hfs, hdup]
      rw [hstep]
      refine ⟨?_, ?_, ?_⟩
      · intro s
        rw [h1 s, sigFiles_append]
        by_cases hs : signatureOf f = s
        · rw [if_pos hs, ← hs]
          cases hsf : sigFiles (signatureOf f) p with
          | nil => rw [hsf] at hhead; cases hhead
          | cons a t => simp
        · simp [if_neg hs]
      · intro s
        by_cases hs : s = signatureOf f
        · subst hs
          rw [lookupA_updApp_self _ _ _ _ hdup, sigFiles_append, if_pos rfl, hl.1]
          have h2le : 2 ≤ (sigFiles (signatureOf f) p ++ [f]).length := by
            have := hl.2
            simp only [List.length_append, List.length_cons, List.length_nil]
            omega
          rw [if_pos h2le]
        · have hne : signatureOf f ≠ s := fun he => hs he.symm
          rw [lookupA_updApp_ne _ _ _ _ hs, h2 s, sigFiles_append]
          simp [if_neg hne]
      · rw [keys_updApp]
        exact h3

theorem detectInv_from (files : List DFile) (p : List DFile) (st : DupState)
    (h : detectInv p st) : detectInv (p ++ files) (detectFrom st files) := by
  induction files generalizing p st with
  | nil => simpa [detectFrom] using h
  | cons f rest ih =>
    have hh := ih (p ++ [f]) (detectStep st f) (detectInv_step p st f h)
    simpa [detectFrom, List.append_assoc] using hh

theorem detectInv_full (files : List DFile) :
    detectInv files (detectFrom { fileSignatures := [], duplicates := [] } files) := by
  have h0 : detectInv [] { fileSignatures := [], duplicates := [] } := by
    refine ⟨fun s => rfl, fun s => by simp [sigFiles, lookupA], by simp⟩
  simpa using detectInv_from files [] _ h0

theorem two_le_length_filter {α : Type} (pr : α → Bool) (l : List α) (i j : Nat)
    (hi : i < l.length) (hj : j < l.length) (hij : i ≠ j)
    (hpi : pr (l.get ⟨i, hi⟩) = true) (hpj : pr (l.get ⟨j, hj⟩) = true) :
    2 ≤ (l.filter pr).length := by
  induction l generalizing i j with
  | nil => exact absurd hi (by simp)
  | cons a t ih =>
    cases i with
    | zero =>
      cases j with
      | zero => exact absurd rfl hij
      | succ j2 =>
        have hpa : pr a = true := by simpa using hpi
        have hj2 : j2 < t.length := by simpa using hj
        have hmem : t.get ⟨j2, hj2⟩ ∈ t.filter pr :=
          List.mem_filter.mpr ⟨List.get_mem t j2 hj2, by simpa using hpj⟩
        have hpos : 0 < (t.filter pr).length := List.length_pos_of_mem hmem
        have hlen : (List.filter pr (a :: t)).length = (List.filter pr t).length + 1 := by
          simp [List.filter_cons, hpa]
        omega
    | succ i2 =>
      cases j with
      | zero =>
        have hpa : pr a = true := by simpa using hpj
        have hi2 : i2 < t.length := by simpa using hi
        have hmem : t.get ⟨i2, hi2⟩ ∈ t.filter pr :=
          List.mem_filter.mpr ⟨List.get_mem t i2 hi2, by simpa using hpi⟩
        have hpos : 0 < (t.filter pr).length := List.length_pos_of_mem hmem
        have hlen : (List.filter pr (a :: t)).length = (List.filter pr t).length + 1 := by
          simp [List.filter_cons, hpa]
        omega
      | succ j2 =>
        have hi2 : i2 < t.length := by simpa using hi
        have hj2 : j2 < t.length := by simpa using hj
        have hij2 : i2 ≠ j2 := fun he => hij (by rw [he])
        have hrec := ih i2 j2 hi2 hj2 hij2 (by simpa using hpi) (by simpa using hpj)
        have hge : (List.filter pr t).length ≤ (List.filter pr (a :: t)).length := by
          cases hpa : pr a with
          | false =>
            have hfeq : List.filter pr (a :: t) = List.filter pr t := by
              simp [List.filter_cons, hpa]
            rw [hfeq]
          | true =>
            have hfeq : List.filter pr (a :: t) = a :: List.filter pr t := by
              simp [List.filter_cons, hpa]
            rw [hfeq, List.length_cons]
            omega
        omega

/-- C6: any two records of the input (at distinct positions) whose names
normalize to the same string and whose sizes are equal land in the single
exact-duplicate group keyed by their common signature; the group keys are
distinct, every returned group has at least 2 members, and every member of a
group carries that group's signature (so no record appears in more than one
group). -/
theorem detect_duplicates_exact (files : List DFile) (i j : Nat)
    (hi : i < files.length) (hj : j < files.length) (hij : i ≠ j)
    (hname : normalizeName (files.get ⟨i, hi⟩).name = normalizeName (files.get ⟨j, hj⟩).name)
    (hsize : (files.get ⟨i, hi⟩).size = (files.get ⟨j, hj⟩).size) :
    ∃ gr, lookupA (detectDuplicates files) (signatureOf (files.get ⟨i, hi⟩)) = some gr
      ∧ files.get ⟨i, hi⟩ ∈ gr
      ∧ files.get ⟨j, hj⟩ ∈ gr
      ∧ ((detectDuplicates files).map Prod.fst).Nodup
      ∧ (∀ s l, (s, l) ∈ detectDuplicates files → 2 ≤ l.length)
      ∧ (∀ s l, (s, l) ∈ detectDuplicates files → ∀ g, g ∈ l → signatureOf g = s) := by
  obtain ⟨h1, h2, h3⟩ := detectInv_full files
  have h2d : ∀ s, lookupA (detectDuplicates files) s
      = if 2 ≤ (sigFiles s files).length then some (sigFiles s files) else none := h2
  have h3d : ((detectDuplicates files).map Prod.fst).Nodup := h3
  have hsig : signatureOf (files.get ⟨j, hj⟩) = signatureOf (files.get ⟨i, hi⟩) := by
    unfold signatureOf
    rw [hname, hsize]
  have hcount : 2 ≤ (sigFiles (signatureOf (files.get ⟨i, hi⟩)) files).length := by
    refine two_le_length_filter _ files i j hi hj hij ?_ ?_
    · simp only [decide_eq_true_eq]
    · simp only [decide_eq_true_eq]
      exact hsig
  refine ⟨sigFiles (signatureOf (files.get ⟨i, hi⟩)) files, ?_, ?_, ?_, h3d, ?_, ?_⟩
  · rw [h2d, if_pos hcount]
  · exact List.mem_filter.mpr ⟨List.get_mem files i hi,
      by simp only [decide_eq_true_eq]⟩
  · exact List.mem_filter.mpr ⟨List.get_mem files j hj,
      by simp only [decide_eq_true_eq]; exact hsig⟩
  · intro s l hmem
    have hlk := lookupA_of_mem_nodup _ _ _ hmem h3d
    rw [h2d s] at hlk
    by_cases hc : 2 ≤ (sigFiles s files).length
    · rw [if_pos hc] at hlk
      rw [← Option.some.inj hlk]
      exact hc
    · rw [if_neg hc] at hlk
      cases hlk
  · intro s l hmem g hg
    have hlk := lookupA_of_mem_nodup _ _ _ hmem h3d
    rw [h2d s] at hlk
    by_cases hc : 2 ≤ (sigFiles s files).length
    · rw [if_pos hc] at hlk
      rw [← Option.some.inj hlk] at hg
      have := List.mem_filter.mp hg
      simpa using this.2
    · rw [if_neg hc] at hlk
      cases hlk

/-- Two records with the same normalized name and size under different raw
names, for concrete runs of detect_duplicates. -/
def dupDemoFiles : List DFile :=
  [ { name := "kova config", mimeType := "", size := 10 }
  , { name := "kova-config", mimeType := "", size := 10 } ]

/-- Witness for detect_duplicates_exact at a concrete manifest. -/
theorem detect_duplicates_exact_witness :
    ∃ gr, lookupA (detectDuplicates dupDemoFiles)
        (signatureOf (dupDemoFiles.get ⟨0, by decide⟩)) = some gr
      ∧ dupDemoFiles.get ⟨0, by decide⟩ ∈ gr
      ∧ dupDemoFiles.get ⟨1, by decide⟩ ∈ gr := by
  obtain ⟨gr, ha, hb, hc, _⟩ := detect_duplicates_exact dupDemoFiles 0 1
    (by decide) (by decide) (by decide) (by decide) (by decide)
  exact ⟨gr, ha, hb, hc⟩

/-! ## GoogleDriveImporter (scripts/gdrive_import.py)

analyze_file derives a file's age in days from its modifiedTime against the
wall clock; the embedding takes that age as an explicit input (absent when the
record has no modifiedTime key). -/

/-- One scanned file record (the keys analyze_file and find_duplicates read). -/
structure GFile where
  name : String
  mimeType : String
  size : Int
  daysOld : Option Int
deriving DecidableEq

/-- The KOVA_KEYWORDS constant. -/
def kovaKeywords : List String :=
  ["kova", "kova-ai", "kova ai", "kovaai", "purgatory", "claude", "multi-repo",
   "appsheet", "webhook"]

/-- Keyword points of analyze_file: two per matched keyword, capped at 4. -/
def keywordPoints (nameLower : String) : Int :=
  min ((kovaKeywords.countP (fun kw => containsSub nameLower kw) : Int) * 2) 4

/-- Recency points of analyze_file (0 when no modifiedTime is present). -/
def recencyPoints (daysOld : Option Int) : Int :=
  match daysOld with
  | none => 0
  | some d => if d < 30 then 3 else if d < 90 then 2 else if d < 180 then 1 else 0

/-- Mime-type points of analyze_file. -/
def typePoints (mimeType : String) : Int :=
  if containsSub mimeType "document" || containsSub mimeType "text" then 2
  else if containsSub mimeType "spreadsheet" || containsSub mimeType "json" then 2
  else if containsSub mimeType "folder" then 1
  else 0

/-- Size points of analyze_file (1KB < size < 10MB). -/
def sizePoints (size : Int) : Int :=
  if 1024 < size ∧ size < 10 * 1024 * 1024 then 1 else 0

/-- The relevance_score field assembled by GoogleDriveImporter.analyze_file:
the component sum, capped at 10. -/
def relevanceScore (f : GFile) : Int :=
  min (keywordPoints (lowerStr f.name) + recencyPoints f.daysOld
      + typePoints f.mimeType + sizePoints f.size) 10

/-- C8: the relevance score of every file record is an integer between 0 and
10 inclusive. -/
theorem relevance_score_bounds (f : GFile) :
    0 ≤ relevanceScore f ∧ relevanceScore f ≤ 10 := by
  have hk : 0 ≤ keywordPoints (lowerStr f.name) ∧ keywordPoints (lowerStr f.name) ≤ 4 := by
    unfold keywordPoints
    refine ⟨le_min (by positivity) (by norm_num), min_le_right _ _⟩
  have hr : 0 ≤ recencyPoints f.daysOld ∧ recencyPoints f.daysOld ≤ 3 := by
    cases hd : f.daysOld with
    | none => simp [recencyPoints, hd]
    | some d =>
      simp only [recencyPoints, hd]
      split_ifs <;> norm_num
  have ht : 0 ≤ typePoints f.mimeType ∧ typePoints f.mimeType ≤ 2 := by
    unfold typePoints
    split_ifs <;> norm_num
  have hs : 0 ≤ sizePoints f.size ∧ sizePoints f.size ≤ 1 := by
    unfold sizePoints
    split_ifs <;> norm_num
  unfold relevanceScore
  constructor
  · refine le_min ?_ (by norm_num)
    have := hk.1
    have := hr.1
    have := ht.1
    have := hs.1
    omega
  · exact min_le_right _ _

/-! ### find_duplicates and calculate_similarity (claim C7)

The source compares the float quotient len(intersection)/len(union) against
the literal 0.8. For quotients of machine-size integer cardinalities the
correctly-rounded float quotient compares to the double nearest 0.8 exactly as
the rational quotient compares to 4/5, so the embedding uses the exact
rational threshold. -/

/-- A character matched by the regex class backslash-w. -/
def isWordChar (c : Char) : Bool := c.isAlphanum || c = '_'

/-- The maximal word-character runs of a character list (re.findall of the
word-token pattern), with the run being built carried reversed. -/
def tokenRunsAux : List Char → List Char → List String
  | [], cur => if cur.isEmpty then [] else [cur.reverse.asString]
  | c :: rest, cur =>
    if isWordChar c then tokenRunsAux rest (c :: cur)
    else if cur.isEmpty then tokenRunsAux rest []
    else cur.reverse.asString :: tokenRunsAux rest []

/-- The word-token set of a lowercased string (Python set of re.findall). -/
def wordTokens (s : String) : Finset String :=
  (tokenRunsAux (lowerStr s).data []).toFinset

/-- GoogleDriveImporter.calculate_similarity: 1 for equal strings, 0 when a
token set is empty, otherwise the Jaccard index of the token sets. -/
def calculateSimilarity (s1 s2 : String) : ℚ :=
  if s1 = s2 then 1
  else
    let words1 := wordTokens s1
    let words2 := wordTokens s2
    if words1 = ∅ ∨ words2 = ∅ then 0
    else ((words1 ∩ words2).card : ℚ) / ((words1 ∪ words2).card : ℚ)

theorem calculateSimilarity_comm (s1 s2 : String) :
    calculateSimilarity s1 s2 = calculateSimilarity s2 s1 := by
  unfold calculateSimilarity
  by_cases h : s1 = s2
  · subst h
    simp
  · have h2 : ¬ s2 = s1 := fun he => h he.symm
    simp only [if_neg h, if_neg h2]
    by_cases he : wordTokens s1 = ∅ ∨ wordTokens s2 = ∅
    · simp [he, he.symm]
    · have he2 : ¬ (wordTokens s2 = ∅ ∨ wordTokens s1 = ∅) := fun hc => he hc.symm
      simp only [if_neg he, if_neg he2]
      rw [Finset.inter_comm, Finset.union_comm]

/-- The by_name grouping loop of find_duplicates (keys are lowercased names). -/
def byNameFrom (acc : List (String × List GFile)) : List GFile → List (String × List GFile)
  | [] => acc
  | f :: rest => byNameFrom (dictAppend acc (lowerStr f.name) f) rest

/-- A duplicate group of find_duplicates: exact_name or similar_name. -/
inductive DupGroup where
  | exactName (name : String) (count : Nat) (files : List GFile)
  | similarName (sim : ℚ) (name1 name2 : String) (files : List GFile)
deriving DecidableEq

/-- The exact-name pass: every by_name bucket with more than one file. -/
def exactGroups (m : List (String × List GFile)) : List DupGroup :=
  (m.filter (fun p => 1 < p.2.length)).map
    (fun p => .exactName p.1 p.2.length p.2)

/-- The ordered pairs the nested loop enumerate(names) x names[i+1:] visits. -/
def pairsAfter : List String → List (String × String)
  | [] => []
  | n :: rest => (rest.map (fun n2 => (n, n2))) ++ pairsAfter rest

/-- The similar-name pass: pairs of distinct bucket names scoring above the
threshold, each carrying the concatenation of the two buckets. -/
def similarGroups (m : List (String × List GFile)) : List DupGroup :=
  ((pairsAfter (m.map Prod.fst)).filter
      (fun p => (4 : ℚ)/5 < calculateSimilarity p.1 p.2)).map
    (fun p => .similarName (calculateSimilarity p.1 p.2) p.1 p.2
        ((lookupA m p.1).getD [] ++ (lookupA m p.2).getD []))

/-- GoogleDriveImporter.find_duplicates: exact groups then similar groups. -/
def findDuplicatesG (files : List GFile) : List DupGroup :=
  exactGroups (byNameFrom [] files) ++ similarGroups (byNameFrom [] files)

theorem mem_updApp {α : Type} (m : List (String × List α)) (k0 : String) (x : α)
    (k : String) (l : List α) (h : (k, l) ∈ updApp m k0 x) :
    (k, l) ∈ m ∨ ∃ l0, (k, l0) ∈ m ∧ k = k0 ∧ l = l0 ++ [x] := by
  induction m with
  | nil => simp [updApp] at h
  | cons p rest ih =>
    obtain ⟨k1, v1⟩ := p
    by_cases hk : k1 = k0
    · subst hk
      simp only [updApp, if_pos rfl] at h
      rcases List.mem_cons.mp h with h1 | h1
      · obtain ⟨he1, he2⟩ := Prod.mk.injEq .. ▸ h1
        subst he1
        exact Or.inr ⟨v1, List.mem_cons_self _ _, rfl, he2⟩
      · exact Or.inl (List.mem_cons_of_mem _ h1)
    · simp only [updApp, if_neg hk] at h
      rcases List.mem_cons.mp h with h1 | h1
      · exact Or.inl (h1 ▸ List.mem_cons_self _ _)
      · rcases ih h1 with h2 | ⟨l0, hl0, he, hl⟩
        · exact Or.inl (List.mem_cons_of_mem _ h2)
        · exact Or.inr ⟨l0, List.mem_cons_of_mem _ hl0, he, hl⟩

theorem byNameFrom_inv (files : List GFile) (acc : List (String × List GFile))
    (hacc : ∀ k l, (k, l) ∈ acc → ∀ f, f ∈ l → lowerStr f.name = k) :
    ∀ k l, (k, l) ∈ byNameFrom acc files → ∀ f, f ∈ l → lowerStr f.name = k := by
  induction files generalizing acc with
  | nil => exact hacc
  | cons f rest ih =>
    refine ih (dictAppend acc (lowerStr f.name) f) ?_
    intro k l hmem g hg
    unfold dictAppend at hmem
    cases hlk : lookupA acc (lowerStr f.name) with
    | some l1 =>
      rw [hlk] at hmem
      rcases mem_updApp _ _ _ _ _ hmem with h1 | ⟨l0, hl0, he, hl⟩
      · exact hacc k l h1 g hg
      · subst he
        subst hl
        rcases List.mem_append.mp hg with h2 | h2
        · exact hacc _ l0 hl0 g h2
        · rw [List.mem_singleton.mp h2]
    | none =>
      rw [hlk] at hmem
      rcases List.mem_append.mp hmem with h1 | h1
      · exact hacc k l h1 g hg
      · obtain ⟨he1, he2⟩ := Prod.mk.injEq .. ▸ List.mem_singleton.mp h1
        subst he1
        subst he2
        rw [List.mem_singleton.mp hg]

theorem mem_getD_lookup {α : Type} (m : List (String × List α)) (n : String) (x : α)
    (hx : x ∈ (lookupA m n).getD []) : ∃ l, lookupA m n = some l ∧ x ∈ l := by
  cases h : lookupA m n with
  | none =>
    rw [h] at hx
    cases hx
  | some l =>
    rw [h] at hx
    exact ⟨l, rfl, by simpa using hx⟩

theorem mem_similarGroups (m : List (String × List GFile)) (g : DupGroup)
    (h : g ∈ similarGroups m) :
    ∃ n1 n2, (4 : ℚ)/5 < calculateSimilarity n1 n2
      ∧ g = .similarName (calculateSimilarity n1 n2) n1 n2
          ((lookupA m n1).getD [] ++ (lookupA m n2).getD []) := by
  unfold similarGroups at h
  rcases List.mem_map.mp h with ⟨p, hp, hg⟩
  rcases List.mem_filter.mp hp with ⟨_, hlt⟩
  exact ⟨p.1, p.2, by simpa using hlt, hg.symm⟩

/-- C7: two records with distinct lowercased names whose token-set Jaccard
similarity is at most 4/5 are never placed together in a similar-name group of
find_duplicates. -/
theorem similar_threshold (files : List GFile) (f1 f2 : GFile)
    (hne : lowerStr f1.name ≠ lowerStr f2.name)
    (hsim : calculateSimilarity (lowerStr f1.name) (lowerStr f2.name) ≤ 4/5) :
    ∀ sim n1 n2 gfiles,
      DupGroup.similarName sim n1 n2 gfiles ∈ findDuplicatesG files →
      ¬ (f1 ∈ gfiles ∧ f2 ∈ gfiles) := by
  intro sim n1 n2 gfiles hmem hc
  obtain ⟨hf1, hf2⟩ := hc
  have hinv := byNameFrom_inv files [] (by intro k l hm; cases hm)
  rcases List.mem_append.mp hmem with hex | hsimg
  · unfold exactGroups at hex
    rcases List.mem_map.mp hex with ⟨p, _, hg⟩
    cases hg
  · obtain ⟨m1, m2, hgt, heq⟩ := mem_similarGroups _ _ hsimg
    cases heq
    have hname : ∀ g : GFile,
        g ∈ (lookupA (byNameFrom [] files) n1).getD []
          ++ (lookupA (byNameFrom [] files) n2).getD [] →
        lowerStr g.name = n1 ∨ lowerStr g.name = n2 := by
      intro g hg
      rcases List.mem_append.mp hg with h1 | h1
      · obtain ⟨l, hl, hgl⟩ := mem_getD_lookup _ _ _ h1
        exact Or.inl (hinv _ _ (mem_of_lookupA _ _ _ hl) g hgl)
      · obtain ⟨l, hl, hgl⟩ := mem_getD_lookup _ _ _ h1
        exact Or.inr (hinv _ _ (mem_of_lookupA _ _ _ hl) g hgl)
    have hgt2 : ¬ calculateSimilarity (lowerStr f1.name) (lowerStr f2.name) ≤ 4/5 := by
      rcases hname f1 hf1 with h1 | h1 <;> rcases hname f2 hf2 with h2 | h2
      · exact absurd (h2 ▸ h1 : lowerStr f1.name = lowerStr f2.name) hne
      · rw [h1, h2]
        exact not_le.mpr hgt
      · rw [h1, h2, calculateSimilarity_comm]
        exact not_le.mpr hgt
      · exact absurd (h2 ▸ h1 : lowerStr f1.name = lowerStr f2.name) hne
    exact hgt2 hsim

/-- Two records whose lowercased names share no word token, for a concrete run
of the similarity threshold. -/
def simDemoA : GFile := { name := "!", mimeType := "", size := 0, daysOld := none }

def simDemoB : GFile := { name := "?", mimeType := "", size := 0, daysOld := none }

def simDemoFiles : List GFile := [simDemoA, simDemoB]

/-- Witness for similar_threshold at a concrete pair of records. -/
theorem similar_threshold_witness :
    (calculateSimilarity (lowerStr simDemoA.name) (lowerStr simDemoB.name) = 0)
  ∧ ∀ sim n1 n2 gfiles,
      DupGroup.similarName sim n1 n2 gfiles ∈ findDuplicatesG simDemoFiles →
      ¬ (simDemoA ∈ gfiles ∧ simDemoB ∈ gfiles) := by
  constructor
  · rfl
  · refine similar_threshold simDemoFiles simDemoA simDemoB (by decide) ?_
    rw [show calculateSimilarity (lowerStr simDemoA.name) (lowerStr simDemoB.name)
        = 0 from rfl]
    norm_num

/-! ## FileOrganizer (scripts/file_organizer.py)

organize_file appends the generated filename to the destination folder in both
the normal and the low-relevance branch, so the embedding tracks the
destination folder; the base path is an explicit argument. -/

/-- One inventory record as organize_file reads it: category, name and
relevance score are looked up with .get defaults. -/
structure OFile where
  category : Option String
  name : Option String
  relevanceScore : Option Int
deriving DecidableEq

/-- The FOLDER_STRUCTURE table looked up with the UNKNOWN entry as default. -/
def folderStructure (category : String) : String :=
  if category = "CORE" then "01-Core-System"
  else if category = "REPO" then "02-Repositories"
  else if category = "INT" then "03-Integrations"
  else if category = "DATA" then "04-Data-Management"
  else if category = "DEV" then "05-Development"
  else if category = "OPS" then "06-Operations"
  else if category = "COM" then "07-Communication"
  else if category = "RES" then "08-Resources"
  else if category = "PURGATORY" then "09-Purgatory"
  else if category = "META" then "10-Meta"
  else if category = "UNKNOWN" then "09-Purgatory/To-Review/Needs-Categorization"
  else "09-Purgatory/To-Review/Needs-Categorization"

/-- FileOrganizer.determine_destination: base folder from the category, then a
name-keyword subcategory for CORE/INT/DATA/DEV. -/
def determineDestination (basePath : String) (f : OFile) : String :=
  let category := f.category.getD "UNKNOWN"
  let name := lowerStr (f.name.getD "")
  let baseFolder := folderStructure category
  let subcategory : Option String :=
    if category = "CORE" then
      if containsSub name "architecture" || containsSub name "diagram" then
        some "Documentation/Architecture"
      else if containsSub name "api" || containsSub name "endpoint" then
        some "Documentation/API-Reference"
      else if containsSub name "setup" || containsSub name "guide" then
        some "Documentation/Setup-Guides"
      else if containsSub name "config" || containsSub name "env" then
        some "Configuration/Production"
      else if containsSub name "docker" then some "Deployment/Docker"
      else none
    else if category = "INT" then
      if containsSub name "google" || containsSub name "drive" then
        some "Google-Drive/Scripts"
      else if containsSub name "claude" || containsSub name "anthropic" then
        some "Claude-AI/Prompts"
      else if containsSub name "github" || containsSub name "webhook" then
        some "GitHub/Webhooks"
      else if containsSub name "appsheet" then some "AppSheet/Apps"
      else none
    else if category = "DATA" then
      if containsSub name "backup" then some "Backups/Daily"
      else if containsSub name "archive" then some "Archives/2024"
      else some "Active-Data/Databases"
    else if category = "DEV" then
      if containsSub name "prototype" || containsSub name "proto" then some "Prototypes"
      else if containsSub name "experiment" || containsSub name "test" then
        some "Experiments"
      else some "Active-Projects"
    else none
  match subcategory with
  | some sub => basePath ++ "/" ++ baseFolder ++ "/" ++ sub
  | none => basePath ++ "/" ++ baseFolder

/-- FileOrganizer.organize_file, reduced to the destination folder it selects:
relevance below 5 (default 5 when the key is absent) redirects to the
Purgatory review folder. -/
def organizeDestination (basePath : String) (f : OFile) : String :=
  let relevance := f.relevanceScore.getD 5
  if relevance < 5 then
    basePath ++ "/" ++ "09-Purgatory/To-Review/Needs-Categorization"
  else determineDestination basePath f

/-- C10: a record with relevance score below 5 is redirected to the Purgatory
review folder regardless of the destination its category and name would
otherwise determine, and a record with no relevance score defaults to 5 and
keeps its determined destination. -/
theorem organize_low_relevance (basePath : String) (f : OFile) :
    (∀ r : Int, f.relevanceScore = some r → r < 5 →
        organizeDestination basePath f
          = basePath ++ "/" ++ "09-Purgatory/To-Review/Needs-Categorization")
  ∧ (f.relevanceScore = none →
        f.relevanceScore.getD 5 = 5
        ∧ organizeDestination basePath f = determineDestination basePath f) := by
  constructor
  · intro r hr hlt
    simp [organizeDestination, hr, hlt]
  · intro hn
    refine ⟨by simp [hn], ?_⟩
    simp [organizeDestination, hn]
